import Mathlib

/-!
Verification of the JavaDoc-insertion tool (src/main.py).

The tool's own logic is pure text manipulation over a buffer of lines
(`List String`); we embed it here.  External collaborators (the javalang
parser, the OpenAI chat call, terminal highlighting, stdin/stdout and file
I/O) are not part of the embedding: parsed method records and remote-call
outcomes appear as explicit parameters.

Python strings are modelled as Lean `String` (a wrapper around
`List Char`); all Python string operations (`strip`, `startswith`,
`count`, `in`, `split`, `splitlines`, `join`) are implemented explicitly
over the underlying character lists, following Python semantics.
`splitlines` is modelled for the newline character only (the tool always
feeds it LF-separated text).
-/

/-- Whitespace characters stripped by Python `str.strip()`. -/
def pyIsSpace (c : Char) : Bool :=
  c = ' ' || c = '\t' || c = '\n' || c = '\r' || c = '\x0b' || c = '\x0c'

/-- Remove leading whitespace (Python `str.lstrip()`), at character-list level. -/
def lstripL (l : List Char) : List Char :=
  l.dropWhile pyIsSpace

/-- Remove trailing whitespace (Python `str.rstrip()`), at character-list level. -/
def rstripL : List Char → List Char
  | [] => []
  | c :: cs =>
    let r := rstripL cs
    if r = [] then (if pyIsSpace c then [] else [c]) else c :: r

/-- Python `str.strip()`: remove leading and trailing whitespace. -/
def pyStripL (l : List Char) : List Char :=
  rstripL (lstripL l)

/-- Python `str.strip()` on `String`. -/
def pyStrip (s : String) : String :=
  String.mk (pyStripL s.data)

/-- Python `str.startswith(t)`, at character-list level. -/
def startswithL (l t : List Char) : Bool :=
  t.isPrefixOf l

/-- Python `s.split(sep)` for a one-character separator: keeps empty pieces,
including a trailing one. -/
def pySplitCharL (sep : Char) : List Char → List (List Char)
  | [] => [[]]
  | c :: cs =>
    if c = sep then [] :: pySplitCharL sep cs
    else
      match pySplitCharL sep cs with
      | [] => [[c]]
      | l :: ls => (c :: l) :: ls

/-- Python `str.splitlines()` restricted to the newline character: like
splitting on the separator, but the empty string gives no lines and a
trailing newline produces no trailing empty line. -/
def pySplitlinesL : List Char → List (List Char)
  | [] => []
  | c :: cs =>
    if c = '\n' then [] :: pySplitlinesL cs
    else
      match pySplitlinesL cs with
      | [] => [[c]]
      | l :: ls => (c :: l) :: ls

/-- Leading-whitespace run of a line (the match of the Python regex
for zero or more whitespace characters anchored at the start). -/
def leadingWhitespaceL (l : List Char) : List Char :=
  l.takeWhile pyIsSpace

/-!  ## Source functions (src/main.py) -/

/-- Model of a parsed method declaration, as consumed from the external
javalang parser: `name`, the parameter list (only its length is inspected),
and `return_type`, where `none` corresponds to Python `None` (javalang
represents a `void` or constructor-absent return type as `None`) and
`some t` to a node whose string form is `t`. -/
structure MethodRecord where
  name : String
  parameters : List String
  return_type : Option String
deriving DecidableEq, Repr

/-- Source `is_getter` (src/main.py lines 26-32): name starts with "get" or
"is", zero parameters, and `return_type is not None`. -/
def is_getter (method : MethodRecord) : Bool :=
  (startswithL method.name.data "get".data || startswithL method.name.data "is".data) &&
  method.parameters.length == 0 &&
  method.return_type.isSome

/-- Source `is_setter` (src/main.py lines 34-40): name starts with "set",
exactly one parameter, and the return type is `None` or prints as "void". -/
def is_setter (method : MethodRecord) : Bool :=
  startswithL method.name.data "set".data &&
  method.parameters.length == 1 &&
  (method.return_type == none || method.return_type == some "void")

/-- Source `get_method_positions`, filtering aspect (src/main.py lines 46-49):
the loop over parsed `MethodDeclaration` nodes skips a node when
`is_getter(node) or is_setter(node)` and otherwise appends its record, in
traversal (file) order.  Parsing itself is external (javalang). -/
def get_method_positions_filter (methods : List MethodRecord) : List MethodRecord :=
  methods.filter (fun m => !(is_getter m || is_setter m))

/-- A node on the javalang lookup path of a method: either a class
declaration ancestor (with its modifier list and name) or any other kind
of ancestor node, which the hierarchy loop ignores. -/
inductive PathNode where
  | classDecl (modifiers : List String) (name : String)
  | other
deriving DecidableEq, Repr

/-- Source rendering of one class ancestor (src/main.py lines 55-56):
join the modifiers with spaces (the empty modifier list joins to the empty
string), then strip the full formatted text. -/
def renderClassDecl (modifiers : List String) (name : String) : String :=
  let mods := String.intercalate " " modifiers
  String.mk (pyStripL (mods ++ " class " ++ name).data)

/-- Source hierarchy construction (src/main.py lines 51-57): walk the
lookup path, render every `ClassDeclaration` ancestor, join with " > ". -/
def build_hierarchy (path : List PathNode) : String :=
  String.intercalate " > "
    (path.filterMap (fun n =>
      match n with
      | PathNode.classDecl mods nm => some (renderClassDecl mods nm)
      | PathNode.other => none))

/-- Shared tail of the `has_javadoc` loop body (src/main.py lines 80-84):
given the stripped text of a non-empty line, `/**` means a doc comment is
present; `//` or `/*` mean it is not; anything else breaks out of the loop
(also returning false). -/
def docCheck (line : List Char) : Bool :=
  if startswithL line "/**".data then true
  else if startswithL line "//".data || startswithL line "/*".data then false
  else false

/-- The `while index >= 0` loop of source `has_javadoc` (src/main.py lines
75-84), by the 0-based index scanned, counting down: an empty-after-strip
line moves one line up; the first non-empty line decides via `docCheck`.
Indices are always in range when the declaration line is a line of the
buffer, so out-of-range access (a Python `IndexError`) cannot occur and
`List.getD` with a default is safe. -/
def hasJavadocScan (java_code_lines : List String) : Nat → Bool
  | 0 =>
    let line := pyStripL (java_code_lines.getD 0 "").data
    if line = [] then false else docCheck line
  | i + 1 =>
    let line := pyStripL (java_code_lines.getD (i + 1) "").data
    if line = [] then hasJavadocScan java_code_lines i else docCheck line

/-- Source `has_javadoc` (src/main.py lines 70-85): start at
`index = line_number - 2`; if that is negative the loop body never runs
and the result is false. -/
def has_javadoc (java_code_lines : List String) (line_number : Nat) : Bool :=
  if line_number < 2 then false
  else hasJavadocScan java_code_lines (line_number - 2)

/-- The `while insert_at > 0` loop of source `insert_javadoc` (src/main.py
lines 160-165): walk upward from the given 0-based insertion index past
every line whose stripped text starts with "@". -/
def findInsertAt (java_code_lines : List String) : Nat → Nat
  | 0 => 0
  | i + 1 =>
    if startswithL (pyStripL (java_code_lines.getD i "").data) "@".data then
      findInsertAt java_code_lines i
    else i + 1

/-- Source `insert_javadoc` (src/main.py lines 155-176): find the insertion
index above any attached annotation lines, take the leading whitespace of
the declaration line as indentation, split the comment on newlines, keep
the non-empty-after-strip lines each as indentation plus stripped text, and
splice them in at the insertion index. -/
def insert_javadoc (java_code_lines : List String) (line_number : Nat) (javadoc : String) : List String :=
  let insert_at := findInsertAt java_code_lines (line_number - 1)
  let method_line := java_code_lines.getD (line_number - 1) ""
  let indent := leadingWhitespaceL method_line.data
  let javadoc_lines := (pySplitCharL '\n' javadoc.data).filterMap
    (fun l => if pyStripL l = [] then none else some (String.mk (indent ++ pyStripL l)))
  java_code_lines.take insert_at ++ javadoc_lines ++ java_code_lines.drop insert_at

/-- Net brace count of one line (src/main.py lines 193-194):
occurrences of the opening brace minus occurrences of the closing brace. -/
def braceDelta (l : List Char) : Int :=
  (l.count '\x7b' : Int) - (l.count '\x7d' : Int)

/-- The `for i in range(start_idx, len(...))` loop of source
`extract_full_method_code` (src/main.py lines 188-200), over the suffix of
the buffer that starts at the declaration line, carrying the running brace
count and the started flag: append the line, update the count, mark started
once a line contains an opening brace, and stop after the first line where
the extraction has started and the count is zero. -/
def extractGo : List String → Int → Bool → List String
  | [], _, _ => []
  | l :: rest, open_braces, started =>
    let ob := open_braces + braceDelta l.data
    let st := started || l.data.contains '\x7b'
    if st && ob == 0 then [l]
    else l :: extractGo rest ob st

/-- Source `extract_full_method_code` (src/main.py lines 178-202): run the
brace-matching loop from the 0-based start index and join the accumulated
lines with newlines. -/
def extract_full_method_code (java_code_lines : List String) (start_line : Nat) : String :=
  String.intercalate "\n" (extractGo (java_code_lines.drop (start_line - 1)) 0 false)

/-- Post-processing of the raw chat-completion content in source
`generate_javadoc` (src/main.py lines 145-148): strip the whole content,
split into lines, keep each line's stripped text when non-empty, and rejoin
with newlines. -/
def clean_response (content : String) : String :=
  let raw_javadoc := pyStripL content.data
  let lines := (pySplitlinesL raw_javadoc).filterMap
    (fun line => if pyStripL line = [] then none else some (pyStripL line))
  String.mk (List.intercalate ['\n'] lines)

/-- Source `generate_javadoc` (src/main.py lines 99-153).  The remote
chat-completion call is external; its outcome is the parameter: `ok c`
means the call returned content `c`, `error e` means it raised.  On
success the cleaned content is returned, on any exception the error is
reported and the result is `None` (here `none`). -/
def generate_javadoc (call_result : Except String String) : Option String :=
  match call_result with
  | Except.ok content => some (clean_response content)
  | Except.error _ => none

/-- One iteration of the `for method in method_positions` loop in source
`main` (src/main.py lines 221-235): a method whose declaration already has
a javadoc is left alone; otherwise the comment is generated (the remote
outcome being the parameter) and inserted on success, while a `None`
result only prints a failure message and leaves the buffer unchanged. -/
def processOneMethod (java_code_lines : List String) (line_number : Nat)
    (call_result : Except String String) : List String :=
  if has_javadoc java_code_lines line_number then java_code_lines
  else
    match generate_javadoc call_result with
    | some javadoc => insert_javadoc java_code_lines line_number javadoc
    | none => java_code_lines

/-- The whole method loop of source `main`: fold `processOneMethod` over
the (already sorted) method list, each method paired with the outcome of
its remote call. -/
def processMethods : List String → List (Nat × Except String String) → List String
  | java_code_lines, [] => java_code_lines
  | java_code_lines, (n, r) :: rest => processMethods (processOneMethod java_code_lines n r) rest

/-- Source `main`, sorting step (src/main.py line 219):
`method_positions.sort(key=lambda m: m['position'].line, reverse=True)`,
a stable sort by declaration line, largest first, modelled on the
declaration line numbers. -/
def sortMethodsDesc (lines : List Nat) : List Nat :=
  lines.mergeSort (fun a b => decide (b ≤ a))

/-!  ## Specification-side definitions

These restate, in the spec's own vocabulary, what the spec asserts about
each operation; the claim theorems relate them to the source functions. -/

/-- Spec: "mark started once any opening brace has been observed" — whether
any of the first `j + 1` accumulated lines contains an opening brace. -/
def startedBy (ls : List String) (j : Nat) : Bool :=
  (ls.take (j + 1)).any (fun l => l.data.contains '\x7b')

/-- Spec: "a running count of opening minus closing brace characters seen
so far" — the net brace count of the first `j + 1` accumulated lines. -/
def runningCount (ls : List String) (j : Nat) : Int :=
  ((ls.take (j + 1)).map (fun l => braceDelta l.data)).sum

/-- Spec: the stop condition of the brace-matching extraction holds after
line `j`: extraction has started and the running count is zero. -/
def braceStop (ls : List String) (j : Nat) : Prop :=
  startedBy ls j = true ∧ runningCount ls j = 0

/-- Spec: the presence check scans backward from the line immediately above
the declaration, skips lines empty after trimming, and answers true exactly
when the first non-empty line starts with the doc-comment opener. -/
def hasJavadocSpec (java_code_lines : List String) (line_number : Nat) : Bool :=
  match ((java_code_lines.take (line_number - 1)).reverse.dropWhile
      (fun s => (pyStripL s.data).isEmpty)) with
  | [] => false
  | s :: _ => startswithL (pyStripL s.data) "/**".data

/-- Spec: the number of consecutive lines immediately above the declaration
whose trimmed text starts with "@". -/
def specAnnRun (java_code_lines : List String) (line_number : Nat) : Nat :=
  (((java_code_lines.take (line_number - 1)).reverse).takeWhile
    (fun s => startswithL (pyStripL s.data) "@".data)).length

/-- Spec: the insertion point, reached by walking upward from the
declaration line past every consecutive annotation line. -/
def specInsertAt (java_code_lines : List String) (line_number : Nat) : Nat :=
  (line_number - 1) - specAnnRun java_code_lines line_number

/-- Spec: the comment lines as inserted — split the comment on newlines,
trim each line, keep the non-empty ones, and prefix each with the
leading-whitespace run of the declaration line. -/
def specCommentLines (java_code_lines : List String) (line_number : Nat) (javadoc : String) : List String :=
  (((pySplitCharL '\n' javadoc.data).map pyStripL).filter (fun l => !l.isEmpty)).map
    (fun l => String.mk (leadingWhitespaceL (java_code_lines.getD (line_number - 1) "").data ++ l))

/-- Spec: a method is an accessor (excluded) iff its name starts with "get"
or "is", it takes zero parameters and has a non-void declared return type,
or its name starts with "set", it takes exactly one parameter and has a
void or absent return type. -/
def isAccessorSpec (m : MethodRecord) : Bool :=
  ((startswithL m.name.data "get".data || startswithL m.name.data "is".data) &&
     m.parameters.length == 0 &&
     (m.return_type != none && m.return_type != some "void")) ||
  (startswithL m.name.data "set".data &&
     m.parameters.length == 1 &&
     (m.return_type == none || m.return_type == some "void"))

/-- Spec: the enclosing class declarations found on a method's lookup path,
outer to inner, as (modifier list, name) pairs. -/
def classAncestors (path : List PathNode) : List (List String × String) :=
  path.filterMap (fun n =>
    match n with
    | PathNode.classDecl mods nm => some (mods, nm)
    | PathNode.other => none)

/-- Spec: render every enclosing type as its modifiers, the word "class"
and its name, trimmed of surrounding whitespace, joined outer-to-inner
with " > ". -/
def hierarchySpec (path : List PathNode) : String :=
  String.intercalate " > "
    ((classAncestors path).map (fun p =>
      String.mk (pyStripL (String.intercalate " " p.1 ++ " class " ++ p.2).data)))

/-- The kept stripped lines of a raw response, shared shape of the cleanup
in `clean_response`. -/
def cleanLinesL (ls : List (List Char)) : List (List Char) :=
  ls.filterMap (fun line => if pyStripL line = [] then none else some (pyStripL line))

/-- Spec: split the raw response into lines, trim each line, drop lines
empty after trimming, rejoin with single newlines (no initial whole-string
strip). -/
def cleanSpec (content : String) : String :=
  String.mk (List.intercalate ['\n']
    (((pySplitlinesL content.data).map pyStripL).filter (fun l => !l.isEmpty)))

/-!  ## Helper lemmas -/

theorem startedBy_cons_zero (l : String) (rest : List String) :
    startedBy (l :: rest) 0 = l.data.contains '\x7b' := by
  simp [startedBy]

theorem startedBy_cons_succ (l : String) (rest : List String) (k : Nat) :
    startedBy (l :: rest) (k + 1) = (l.data.contains '\x7b' || startedBy rest k) := by
  simp [startedBy, List.take_succ_cons]

theorem runningCount_cons_zero (l : String) (rest : List String) :
    runningCount (l :: rest) 0 = braceDelta l.data := by
  simp [runningCount]

theorem runningCount_cons_succ (l : String) (rest : List String) (k : Nat) :
    runningCount (l :: rest) (k + 1) = braceDelta l.data + runningCount rest k := by
  simp [runningCount, List.take_succ_cons]

/-- The extraction loop, started with accumulator state `ob`, `st`, stops
with (and includes) line `j` when `j` is the first index at which the
started flag holds and the accumulated count reaches zero. -/
theorem extractGo_take (ls : List String) (ob : Int) (st : Bool) (j : Nat)
    (hstarted : (st || startedBy ls j) = true)
    (hzero : ob + runningCount ls j = 0)
    (hleast : ∀ i, i < j →
      ¬((st || startedBy ls i) = true ∧ ob + runningCount ls i = 0)) :
    extractGo ls ob st = ls.take (j + 1) := by
  induction ls generalizing ob st j with
  | nil =>
    simp [extractGo]
  | cons l rest ih =>
    have hunfold : extractGo (l :: rest) ob st =
        if ((st || l.data.contains '\x7b') && ((ob + braceDelta l.data) == 0)) then [l]
        else l :: extractGo rest (ob + braceDelta l.data) (st || l.data.contains '\x7b') := rfl
    cases j with
    | zero =>
      rw [startedBy_cons_zero] at hstarted
      rw [runningCount_cons_zero] at hzero
      have hcond : ((st || l.data.contains '\x7b') && ((ob + braceDelta l.data) == 0)) = true := by
        simp only [Bool.and_eq_true, beq_iff_eq]
        exact ⟨hstarted, hzero⟩
      rw [hunfold, hcond, if_pos rfl]
      rfl
    | succ k =>
      have hnot0 := hleast 0 (Nat.succ_pos k)
      rw [startedBy_cons_zero, runningCount_cons_zero] at hnot0
      have hcond : ((st || l.data.contains '\x7b') && ((ob + braceDelta l.data) == 0)) = false := by
        by_contra hc
        have hc' := eq_true_of_ne_false hc
        simp only [Bool.and_eq_true, beq_iff_eq] at hc'
        exact hnot0 hc'
      rw [startedBy_cons_succ] at hstarted
      rw [runningCount_cons_succ] at hzero
      have ihres := ih (ob + braceDelta l.data) (st || l.data.contains '\x7b') k
        (by rw [Bool.or_assoc]; exact hstarted)
        (by rw [Int.add_assoc]; exact hzero)
        (by
          intro i hi hbad
          have hli := hleast (i + 1) (Nat.succ_lt_succ hi)
          rw [startedBy_cons_succ, runningCount_cons_succ] at hli
          apply hli
          constructor
          · rw [← Bool.or_assoc]; exact hbad.1
          · rw [← Int.add_assoc]; exact hbad.2)
      rw [hunfold, hcond, if_neg (by simp)]
      rw [ihres, List.take_succ_cons]

/-- The extraction loop never stops while no line contains an opening
brace, so it accumulates every remaining line. -/
theorem extractGo_all (ls : List String) (ob : Int)
    (hno : ∀ l ∈ ls, l.data.contains '\x7b' = false) :
    extractGo ls ob false = ls := by
  induction ls generalizing ob with
  | nil => simp [extractGo]
  | cons l rest ih =>
    have hl : l.data.contains '\x7b' = false := hno l (List.mem_cons_self l rest)
    simp only [extractGo, hl, Bool.or_false]
    rw [if_neg (by simp)]
    rw [ih (ob + braceDelta l.data) (fun x hx => hno x (List.mem_cons_of_mem l hx))]

/-- Unchanged-buffer step for a failed generation: the loop body inserts
nothing when `generate_javadoc` returns `none`. -/
theorem processOneMethod_error (java_code_lines : List String) (n : Nat) (e : String) :
    processOneMethod java_code_lines n (Except.error e) = java_code_lines := by
  unfold processOneMethod
  cases h : has_javadoc java_code_lines n <;> simp [generate_javadoc]

/-!  ## Claim theorems -/

/-- C1: for every line buffer and 1-indexed declaration line,
`extract_full_method_code` accumulates consecutive lines from the
declaration line, tracking the running count of opening minus closing
braces and a started flag set once any opening brace is seen, and stops
with (and includes) the first line at which the extraction has started and
the running count is zero: whenever `j` is the first such index, the
result is exactly the first `j + 1` lines of the suffix, joined by
newlines. -/
theorem extract_stops_at_first_balanced_line
    (java_code_lines : List String) (start_line j : Nat)
    (hstart : 1 ≤ start_line)
    (hstop : braceStop (java_code_lines.drop (start_line - 1)) j)
    (hleast : ∀ i, i < j → ¬ braceStop (java_code_lines.drop (start_line - 1)) i) :
    extract_full_method_code java_code_lines start_line =
      String.intercalate "\n" ((java_code_lines.drop (start_line - 1)).take (j + 1)) := by
  unfold extract_full_method_code
  rw [extractGo_take (java_code_lines.drop (start_line - 1)) 0 false j
    (by rw [Bool.false_or]; exact hstop.1)
    (by rw [Int.zero_add]; exact hstop.2)
    (by
      intro i hi hbad
      apply hleast i hi
      rw [Bool.false_or] at hbad
      rw [Int.zero_add] at hbad
      exact hbad)]

/-- C1 witness: on the single-line input the whole line is returned. -/
theorem extract_stops_at_first_balanced_line_witness :
    (1 ≤ 1 ∧ braceStop ["void f() \x7b if (x) \x7b y(); \x7d \x7d"] 0) ∧
    extract_full_method_code ["void f() \x7b if (x) \x7b y(); \x7d \x7d"] 1 =
      "void f() \x7b if (x) \x7b y(); \x7d \x7d" :=
  ⟨⟨by decide, ⟨by decide, by decide⟩⟩,
    (extract_stops_at_first_balanced_line ["void f() \x7b if (x) \x7b y(); \x7d \x7d"] 1 0
      (by decide) ⟨by decide, by decide⟩
      (fun i hi => absurd hi (Nat.not_lt_zero i))).trans rfl⟩

/-- C9: when no line from the start line onward contains an opening brace,
the stop condition never fires and extraction returns every remaining line
of the buffer, joined with newlines. -/
theorem extract_without_brace_reaches_eof
    (java_code_lines : List String) (start_line : Nat)
    (hstart : 1 ≤ start_line)
    (hno : ∀ l ∈ java_code_lines.drop (start_line - 1), l.data.contains '\x7b' = false) :
    extract_full_method_code java_code_lines start_line =
      String.intercalate "\n" (java_code_lines.drop (start_line - 1)) := by
  unfold extract_full_method_code
  rw [extractGo_all (java_code_lines.drop (start_line - 1)) 0 hno]

/-- C9 witness: a brace-free suffix is returned whole. -/
theorem extract_without_brace_reaches_eof_witness :
    (1 ≤ 1 ∧ ∀ l ∈ (["int x;", "abstract void f();"] : List String).drop 0,
      l.data.contains '\x7b' = false) ∧
    extract_full_method_code ["int x;", "abstract void f();"] 1 = "int x;\nabstract void f();" :=
  ⟨⟨by decide, by decide⟩,
    (extract_without_brace_reaches_eof ["int x;", "abstract void f();"] 1
      (by decide) (by decide)).trans rfl⟩

/-- C10: with a declaration line number of at most 1 there is no line above
the declaration, the backward scan examines nothing, and `has_javadoc`
returns false. -/
theorem has_javadoc_first_line_false
    (java_code_lines : List String) (line_number : Nat) (h : line_number ≤ 1) :
    has_javadoc java_code_lines line_number = false := by
  unfold has_javadoc
  rw [if_pos (by omega)]

/-- C10 witness: on a buffer whose first line declares the method. -/
theorem has_javadoc_first_line_false_witness :
    1 ≤ 1 ∧ has_javadoc ["void m() \x7b"] 1 = false :=
  ⟨le_refl 1, has_javadoc_first_line_false ["void m() \x7b"] 1 (le_refl 1)⟩

/-- C7: when the remote generation call raises, `generate_javadoc` returns
`none`, the loop body for that method leaves the line buffer unchanged,
and the loop continues with the remaining methods on that same buffer. -/
theorem generation_failure_skips_insertion
    (java_code_lines : List String) (line_number : Nat) (e : String)
    (rest : List (Nat × Except String String)) :
    generate_javadoc (Except.error e) = none ∧
    processOneMethod java_code_lines line_number (Except.error e) = java_code_lines ∧
    processMethods java_code_lines ((line_number, Except.error e) :: rest) =
      processMethods java_code_lines rest := by
  refine ⟨rfl, processOneMethod_error java_code_lines line_number e, ?_⟩
  show processMethods (processOneMethod java_code_lines line_number (Except.error e)) rest = _
  rw [processOneMethod_error java_code_lines line_number e]

theorem docCheck_eq (line : List Char) :
    docCheck line = startswithL line "/**".data := by
  unfold docCheck
  cases h : startswithL line "/**".data <;> simp [h]

theorem take_succ_reverse (lines : List String) (m : Nat) (hm : m < lines.length) :
    (lines.take (m + 1)).reverse = lines.getD m "" :: (lines.take m).reverse := by
  rw [List.take_succ, List.getElem?_eq_getElem hm]
  simp [List.getD_eq_getElem?_getD, List.getElem?_eq_getElem hm]

theorem hasJavadocScan_spec (java_code_lines : List String) (m : Nat)
    (hm : m < java_code_lines.length) :
    hasJavadocScan java_code_lines m =
      (match ((java_code_lines.take (m + 1)).reverse.dropWhile
          (fun s => (pyStripL s.data).isEmpty)) with
       | [] => false
       | s :: _ => startswithL (pyStripL s.data) "/**".data) := by
  induction m with
  | zero =>
    have hunfold : hasJavadocScan java_code_lines 0 =
        if pyStripL (java_code_lines.getD 0 "").data = [] then false
        else docCheck (pyStripL (java_code_lines.getD 0 "").data) := rfl
    rw [hunfold, take_succ_reverse java_code_lines 0 hm]
    rw [List.dropWhile_cons]
    by_cases h : pyStripL (java_code_lines.getD 0 "").data = []
    · have hEmp : (pyStripL (java_code_lines.getD 0 "").data).isEmpty = true := by
        rw [h]; rfl
      rw [if_pos h, hEmp, if_pos rfl]
      rfl
    · have hEmp : (pyStripL (java_code_lines.getD 0 "").data).isEmpty = false := by
        cases hc : pyStripL (java_code_lines.getD 0 "").data with
        | nil => exact absurd hc h
        | cons a l => rfl
      rw [if_neg h, hEmp, if_neg (by simp)]
      exact docCheck_eq _
  | succ k ih =>
    have hk : k < java_code_lines.length := Nat.lt_of_succ_lt hm
    have hunfold : hasJavadocScan java_code_lines (k + 1) =
        if pyStripL (java_code_lines.getD (k + 1) "").data = [] then
          hasJavadocScan java_code_lines k
        else docCheck (pyStripL (java_code_lines.getD (k + 1) "").data) := rfl
    rw [hunfold, take_succ_reverse java_code_lines (k + 1) hm]
    rw [List.dropWhile_cons]
    by_cases h : pyStripL (java_code_lines.getD (k + 1) "").data = []
    · have hEmp : (pyStripL (java_code_lines.getD (k + 1) "").data).isEmpty = true := by
        rw [h]; rfl
      rw [if_pos h, hEmp, if_pos rfl]
      exact ih hk
    · have hEmp : (pyStripL (java_code_lines.getD (k + 1) "").data).isEmpty = false := by
        cases hc : pyStripL (java_code_lines.getD (k + 1) "").data with
        | nil => exact absurd hc h
        | cons a l => rfl
      rw [if_neg h, hEmp, if_neg (by simp)]
      exact docCheck_eq _

/-- C3: the presence check agrees with the spec's description everywhere a
declaration line exists in the buffer: scan upward skipping blank lines,
and answer true exactly when the first non-blank line found starts (after
trimming) with the doc-comment opener; a line or plain block comment, or
any other text, answers false, even if a doc comment sits further up. -/
theorem has_javadoc_matches_spec
    (java_code_lines : List String) (line_number : Nat)
    (h1 : 1 ≤ line_number) (h2 : line_number ≤ java_code_lines.length) :
    has_javadoc java_code_lines line_number = hasJavadocSpec java_code_lines line_number := by
  cases line_number with
  | zero => exact absurd h1 (by decide)
  | succ n =>
    cases n with
    | zero => rfl
    | succ m =>
      unfold has_javadoc hasJavadocSpec
      rw [if_neg (by omega)]
      have hm : m < java_code_lines.length := by omega
      exact hasJavadocScan_spec java_code_lines m hm

/-- C3 witness: a doc comment separated from the declaration by a
non-blank, non-comment line is not seen, so the check answers false. -/
theorem has_javadoc_matches_spec_witness :
    (1 ≤ 4 ∧ 4 ≤ (["/** doc */", "int x;", "", "void m() \x7b"] : List String).length) ∧
    has_javadoc ["/** doc */", "int x;", "", "void m() \x7b"] 4 = false :=
  ⟨⟨by decide, by decide⟩,
    (has_javadoc_matches_spec ["/** doc */", "int x;", "", "void m() \x7b"] 4
      (by decide) (by decide)).trans rfl⟩

theorem findInsertAt_spec (java_code_lines : List String) (i : Nat)
    (hi : i ≤ java_code_lines.length) :
    findInsertAt java_code_lines i =
      i - (((java_code_lines.take i).reverse).takeWhile
        (fun s => startswithL (pyStripL s.data) "@".data)).length := by
  induction i with
  | zero => rfl
  | succ k ih =>
    have hk : k < java_code_lines.length := hi
    have hunfold : findInsertAt java_code_lines (k + 1) =
        if startswithL (pyStripL (java_code_lines.getD k "").data) "@".data then
          findInsertAt java_code_lines k
        else k + 1 := rfl
    rw [hunfold, take_succ_reverse java_code_lines k hk, List.takeWhile_cons]
    by_cases h : startswithL (pyStripL (java_code_lines.getD k "").data) "@".data = true
    · rw [if_pos h, if_pos h, List.length_cons, Nat.succ_sub_succ]
      exact ih (Nat.le_of_lt hk)
    · rw [if_neg h, if_neg h, List.length_nil, Nat.sub_zero]

theorem filterMap_strip_eq (js : List (List Char)) (ind : List Char) :
    js.filterMap (fun l => if pyStripL l = [] then none else some (String.mk (ind ++ pyStripL l)))
      = ((js.map pyStripL).filter (fun l => !l.isEmpty)).map
          (fun l => String.mk (ind ++ l)) := by
  induction js with
  | nil => rfl
  | cons l ls ih =>
    rw [List.filterMap_cons, List.map_cons, List.filter_cons]
    by_cases h : pyStripL l = []
    · have hEmp : (!(pyStripL l).isEmpty) = false := by rw [h]; rfl
      simp only [h, hEmp, if_neg (Bool.false_ne_true)]
      exact ih
    · have hEmp : (!(pyStripL l).isEmpty) = true := by
        cases hc : pyStripL l with
        | nil => exact absurd hc h
        | cons a t => rfl
      simp [h, hEmp, ih]

/-- C2: `insert_javadoc` returns the original lines strictly before the
insertion point, then the processed comment lines, then the original lines
from the insertion point onward, with no separating blank line; the
insertion point sits above the run of consecutive annotation lines
directly attached to the declaration, and each kept comment line is the
declaration line's leading whitespace followed by the comment line's
trimmed text. -/
theorem insert_javadoc_matches_spec
    (java_code_lines : List String) (line_number : Nat) (javadoc : String)
    (h1 : 1 ≤ line_number) (h2 : line_number ≤ java_code_lines.length) :
    insert_javadoc java_code_lines line_number javadoc =
      java_code_lines.take (specInsertAt java_code_lines line_number) ++
      specCommentLines java_code_lines line_number javadoc ++
      java_code_lines.drop (specInsertAt java_code_lines line_number) := by
  simp only [insert_javadoc, specInsertAt, specCommentLines, specAnnRun]
  rw [findInsertAt_spec java_code_lines (line_number - 1) (by omega)]
  rw [filterMap_strip_eq]

/-- C2 witness: with two annotation lines and four-space indentation the
comment lands above both annotations, every kept comment line prefixed by
exactly four spaces. -/
theorem insert_javadoc_matches_spec_witness :
    (1 ≤ 4 ∧ 4 ≤ (["class A \x7b", "    @Foo", "    @Bar", "    void m() \x7b", "    \x7d", "\x7d"] : List String).length) ∧
    insert_javadoc ["class A \x7b", "    @Foo", "    @Bar", "    void m() \x7b", "    \x7d", "\x7d"] 4 "/**\n * doc\n */" =
      ["class A \x7b", "    /**", "    * doc", "    */", "    @Foo", "    @Bar", "    void m() \x7b", "    \x7d", "\x7d"] :=
  ⟨⟨by decide, by decide⟩,
    (insert_javadoc_matches_spec
      ["class A \x7b", "    @Foo", "    @Bar", "    void m() \x7b", "    \x7d", "\x7d"] 4 "/**\n * doc\n */"
      (by decide) (by decide)).trans rfl⟩

theorem accessor_pointwise (m : MethodRecord) (h : m.return_type ≠ some "void") :
    (is_getter m || is_setter m) = isAccessorSpec m := by
  unfold is_getter is_setter isAccessorSpec
  cases hrt : m.return_type with
  | none => simp
  | some t =>
    have ht : t ≠ "void" := by
      intro e
      exact h (by rw [hrt, e])
    have h1 : ((some t : Option String) != none) = true := rfl
    have h2 : ((some t : Option String) != some "void") = true := by
      simp [ht]
    have hbe : (t == "void") = false := beq_eq_false_iff_ne.mpr ht
    simp [h1, h2, hbe]

/-- C5: method discovery excludes exactly the accessor-shaped methods
(getter/is-style with no parameters and a non-void declared return type,
or setter-style with one parameter and a void or absent return type) and
keeps all others in file order; parsed records represent a void return
type as an absent one, which the hypothesis expresses. -/
theorem accessor_filter_matches_spec (methods : List MethodRecord)
    (hvoid : ∀ m ∈ methods, m.return_type ≠ some "void") :
    get_method_positions_filter methods =
      methods.filter (fun m => !(isAccessorSpec m)) := by
  unfold get_method_positions_filter
  apply List.filter_congr
  intro m hm
  rw [accessor_pointwise m (hvoid m hm)]

/-- C5 witness: a getter, a setter and an is-getter are excluded while a
plain method and a parameterized get-named method are kept, in order. -/
theorem accessor_filter_matches_spec_witness :
    (∀ m ∈ ([⟨"getX", [], some "int"⟩, ⟨"setName", ["n"], none⟩,
        ⟨"compute", [], some "int"⟩, ⟨"isEmpty", [], some "boolean"⟩,
        ⟨"getAll", ["f"], some "List"⟩] : List MethodRecord),
      m.return_type ≠ some "void") ∧
    get_method_positions_filter
        [⟨"getX", [], some "int"⟩, ⟨"setName", ["n"], none⟩,
         ⟨"compute", [], some "int"⟩, ⟨"isEmpty", [], some "boolean"⟩,
         ⟨"getAll", ["f"], some "List"⟩] =
      [⟨"compute", [], some "int"⟩, ⟨"getAll", ["f"], some "List"⟩] :=
  ⟨by decide,
    (accessor_filter_matches_spec
      [⟨"getX", [], some "int"⟩, ⟨"setName", ["n"], none⟩,
       ⟨"compute", [], some "int"⟩, ⟨"isEmpty", [], some "boolean"⟩,
       ⟨"getAll", ["f"], some "List"⟩] (by decide)).trans rfl⟩

/-- C8: the enclosing-type hierarchy string renders every class
declaration on the lookup path as its modifiers, "class" and its name,
trimmed, joined outer-to-inner with " > "; a path without any enclosing
class declaration yields the empty hierarchy string. -/
theorem hierarchy_matches_spec :
    (∀ path : List PathNode, build_hierarchy path = hierarchySpec path) ∧
    (∀ path : List PathNode, classAncestors path = [] → build_hierarchy path = "") := by
  have hfuse : ∀ path : List PathNode,
      path.filterMap (fun n =>
        match n with
        | PathNode.classDecl mods nm => some (renderClassDecl mods nm)
        | PathNode.other => none)
      = (classAncestors path).map (fun p =>
          String.mk (pyStripL (String.intercalate " " p.1 ++ " class " ++ p.2).data)) := by
    intro path
    induction path with
    | nil => rfl
    | cons n ns ih =>
      cases n with
      | classDecl mods nm =>
        have hstep : List.filterMap (fun n =>
            match n with
            | PathNode.classDecl mods nm => some (renderClassDecl mods nm)
            | PathNode.other => none) (PathNode.classDecl mods nm :: ns)
          = renderClassDecl mods nm :: List.filterMap (fun n =>
            match n with
            | PathNode.classDecl mods nm => some (renderClassDecl mods nm)
            | PathNode.other => none) ns := rfl
        have hanc : classAncestors (PathNode.classDecl mods nm :: ns)
          = (mods, nm) :: classAncestors ns := rfl
        rw [hstep, hanc, List.map_cons, ih]
        rfl
      | other =>
        have hstep : List.filterMap (fun n =>
            match n with
            | PathNode.classDecl mods nm => some (renderClassDecl mods nm)
            | PathNode.other => none) (PathNode.other :: ns)
          = List.filterMap (fun n =>
            match n with
            | PathNode.classDecl mods nm => some (renderClassDecl mods nm)
            | PathNode.other => none) ns := rfl
        have hanc : classAncestors (PathNode.other :: ns) = classAncestors ns := rfl
        rw [hstep, hanc, ih]
  constructor
  · intro path
    unfold build_hierarchy hierarchySpec
    rw [hfuse]
  · intro path hnil
    unfold build_hierarchy
    rw [hfuse, hnil]
    rfl

/-- C8 witness: a path containing no class declaration gives the empty
hierarchy string. -/
theorem hierarchy_matches_spec_witness :
    classAncestors [PathNode.other] = [] ∧ build_hierarchy [PathNode.other] = "" :=
  ⟨rfl, hierarchy_matches_spec.2 [PathNode.other] rfl⟩

theorem sortMethodsDesc_sorted_gt (ms : List Nat) (h : ms.Nodup) :
    (sortMethodsDesc ms).Sorted (· > ·) := by
  have hge : (sortMethodsDesc ms).Pairwise (fun a b : Nat => b ≤ a) := by
    have hp := @List.sorted_mergeSort Nat (fun a b : Nat => decide (b ≤ a))
      (fun a b c hab hbc => by
        simp only [decide_eq_true_eq] at *
        omega)
      (fun a b => by
        simp only [Bool.or_eq_true, decide_eq_true_eq]
        omega)
      ms
    exact hp.imp (fun hab => by simpa using hab)
  have hnd : (sortMethodsDesc ms).Nodup :=
    ((List.mergeSort_perm ms (fun a b : Nat => decide (b ≤ a))).nodup_iff).mpr h
  exact (hge.and hnd).imp (fun hab => lt_of_le_of_ne hab.1 (Ne.symm hab.2))

theorem findInsertAt_gt (java_code_lines : List String) (k : Nat)
    (hk : startswithL (pyStripL (java_code_lines.getD k "").data) "@".data = false) :
    ∀ i, k < i → k < findInsertAt java_code_lines i := by
  intro i
  induction i with
  | zero =>
    intro hcontra
    exact absurd hcontra (Nat.not_lt_zero k)
  | succ j ihj =>
    intro hki
    have hunfold : findInsertAt java_code_lines (j + 1) =
        if startswithL (pyStripL (java_code_lines.getD j "").data) "@".data then
          findInsertAt java_code_lines j
        else j + 1 := rfl
    rw [hunfold]
    by_cases hp : startswithL (pyStripL (java_code_lines.getD j "").data) "@".data = true
    · rw [if_pos hp]
      rcases Nat.lt_or_ge k j with hlt | hge
      · exact ihj hlt
      · have hkj : k = j := by omega
        rw [hkj] at hk
        rw [hk] at hp
        exact absurd hp (by simp)
    · rw [if_neg hp]
      omega

theorem insert_javadoc_preserves_above
    (java_code_lines : List String) (L : Nat) (javadoc : String) (M : Nat)
    (h1 : 1 ≤ M) (h2 : M < L) (h3 : M ≤ java_code_lines.length)
    (h4 : startswithL (pyStripL (java_code_lines.getD (M - 1) "").data) "@".data = false) :
    (insert_javadoc java_code_lines L javadoc).getD (M - 1) "" =
      java_code_lines.getD (M - 1) "" := by
  have hlt : M - 1 < findInsertAt java_code_lines (L - 1) :=
    findInsertAt_gt java_code_lines (M - 1) h4 (L - 1) (by omega)
  simp only [insert_javadoc]
  rw [List.append_assoc]
  have hlen : M - 1 < (java_code_lines.take (findInsertAt java_code_lines (L - 1))).length := by
    rw [List.length_take]
    exact lt_min hlt (by omega)
  rw [List.getD_append _ _ "" (M - 1) hlen]
  rw [List.getD_eq_getElem?_getD, List.getD_eq_getElem?_getD]
  rw [List.getElem?_take_of_lt hlt]

/-- C4 (amended): the method loop sorts declaration lines in strictly
decreasing order (assuming, as the parser guarantees for distinct methods,
pairwise-distinct lines), and an insertion for a method at line `L` leaves
the line of every method at a smaller line number `M` unchanged provided
that method's own declaration line does not, after trimming, start
with "@" — the annotation-skipping walk can otherwise cross it. -/
theorem descending_order_preserves_pending_lines :
    (∀ ms : List Nat, ms.Nodup → (sortMethodsDesc ms).Sorted (· > ·)) ∧
    (∀ (java_code_lines : List String) (L : Nat) (javadoc : String) (M : Nat),
      1 ≤ M → M < L → M ≤ java_code_lines.length →
      startswithL (pyStripL (java_code_lines.getD (M - 1) "").data) "@".data = false →
      (insert_javadoc java_code_lines L javadoc).getD (M - 1) "" =
        java_code_lines.getD (M - 1) "") :=
  ⟨sortMethodsDesc_sorted_gt, insert_javadoc_preserves_above⟩

/-- C4 witness: with methods at lines 10 and 30, processing line 30 first
and inserting a five-line comment does not shift the content at line 10. -/
theorem descending_order_preserves_pending_lines_witness :
    (([10, 30] : List Nat).Nodup ∧ 1 ≤ 10 ∧ 10 < 30 ∧
      10 ≤ (List.replicate 9 "    int a;" ++ ["    void ten() \x7b"] ++
        List.replicate 19 "    int b;" ++ ["    void thirty() \x7b", "    \x7d"]).length ∧
      startswithL (pyStripL (((List.replicate 9 "    int a;" ++ ["    void ten() \x7b"] ++
        List.replicate 19 "    int b;" ++ ["    void thirty() \x7b", "    \x7d"]).getD 9 "").data))
        "@".data = false) ∧
    ((sortMethodsDesc [10, 30]).Sorted (· > ·) ∧
      (insert_javadoc (List.replicate 9 "    int a;" ++ ["    void ten() \x7b"] ++
          List.replicate 19 "    int b;" ++ ["    void thirty() \x7b", "    \x7d"]) 30
          "/**\n * a\n * b\n * c\n */").getD 9 "" =
        (List.replicate 9 "    int a;" ++ ["    void ten() \x7b"] ++
          List.replicate 19 "    int b;" ++ ["    void thirty() \x7b", "    \x7d"]).getD 9 "") :=
  ⟨⟨by decide, by decide, by decide, by decide, by decide⟩,
    ⟨descending_order_preserves_pending_lines.1 [10, 30] (by decide),
      descending_order_preserves_pending_lines.2
        (List.replicate 9 "    int a;" ++ ["    void ten() \x7b"] ++
          List.replicate 19 "    int b;" ++ ["    void thirty() \x7b", "    \x7d"]) 30
        "/**\n * a\n * b\n * c\n */" 10 (by decide) (by decide) (by decide) (by decide)⟩⟩

/-- C4 counterexample: the claim as stated — every method line smaller
than the processed one is unchanged by the insertion — fails when a
pending method's declaration line itself starts with "@": methods sit at
lines 2 and 3; inserting for line 3 walks past the annotation-like
line 2 and splices the comment above it, changing line 2's content. -/
theorem pending_line_shift_cex :
    ¬ (∀ (java_code_lines : List String) (L : Nat) (javadoc : String) (M : Nat),
        1 ≤ M → M < L → M ≤ java_code_lines.length →
        (insert_javadoc java_code_lines L javadoc).getD (M - 1) "" =
          java_code_lines.getD (M - 1) "") := by
  intro hall
  have hinst := hall ["class A \x7b", "@Override void m() \x7b \x7d", "void n() \x7b \x7d", "\x7d"]
    3 "/** d */" 2 (by decide) (by decide) (by decide)
  exact absurd hinst (by decide)

theorem rstripL_eq_nil (w : List Char) (h : ∀ c ∈ w, pyIsSpace c = true) :
    rstripL w = [] := by
  induction w with
  | nil => rfl
  | cons c cs ih =>
    have hr := ih (fun x hx => h x (List.mem_cons_of_mem c hx))
    have hc := h c (List.mem_cons_self c cs)
    simp [rstripL, hr, hc]

theorem pyStripL_eq_nil (w : List Char) (h : ∀ c ∈ w, pyIsSpace c = true) :
    pyStripL w = [] := by
  unfold pyStripL lstripL
  rw [List.dropWhile_eq_nil_iff.mpr h]
  rfl

theorem pyStripL_cons_ws (c : Char) (l : List Char) (h : pyIsSpace c = true) :
    pyStripL (c :: l) = pyStripL l := by
  unfold pyStripL lstripL
  rw [List.dropWhile_cons, if_pos h]

theorem rstripL_append_ws (x w : List Char) (h : ∀ c ∈ w, pyIsSpace c = true) :
    rstripL (x ++ w) = rstripL x := by
  induction x with
  | nil =>
    rw [List.nil_append, rstripL_eq_nil w h]
    rfl
  | cons c xs ih =>
    rw [List.cons_append]
    simp only [rstripL, ih]

theorem pyStripL_append_ws (a w : List Char) (h : ∀ c ∈ w, pyIsSpace c = true) :
    pyStripL (a ++ w) = pyStripL a := by
  unfold pyStripL lstripL
  rw [List.dropWhile_append]
  by_cases hall : ∀ c ∈ a, pyIsSpace c = true
  · have hda : List.dropWhile pyIsSpace a = [] := List.dropWhile_eq_nil_iff.mpr hall
    rw [hda]
    show rstripL (List.dropWhile pyIsSpace w) = rstripL []
    rw [rstripL_eq_nil (List.dropWhile pyIsSpace w)
      (fun c hc => h c ((List.dropWhile_sublist pyIsSpace).mem hc))]
    rfl
  · have hda : List.dropWhile pyIsSpace a ≠ [] := fun e => hall (List.dropWhile_eq_nil_iff.mp e)
    have hne : (List.dropWhile pyIsSpace a).isEmpty = false := by
      cases hd : List.dropWhile pyIsSpace a with
      | nil => exact absurd hd hda
      | cons d ds => rfl
    rw [hne, if_neg (by simp)]
    exact rstripL_append_ws (List.dropWhile pyIsSpace a) w h

theorem pySplitlinesL_cons_nl (cs : List Char) :
    pySplitlinesL ('\n' :: cs) = [] :: pySplitlinesL cs := by
  simp [pySplitlinesL]

theorem cleanLinesL_nil : cleanLinesL [] = [] := rfl

theorem cleanLinesL_cons (l : List Char) (ls : List (List Char)) :
    cleanLinesL (l :: ls) =
      if pyStripL l = [] then cleanLinesL ls else pyStripL l :: cleanLinesL ls := by
  by_cases h : pyStripL l = [] <;> simp [cleanLinesL, List.filterMap_cons, h]

theorem dropWhile_head_false {p : Char → Bool} {l : List Char} {d : Char} {ds : List Char}
    (h : l.dropWhile p = d :: ds) : p d = false := by
  induction l with
  | nil => exact absurd h (by simp)
  | cons c cs ih =>
    rw [List.dropWhile_cons] at h
    by_cases hc : p c = true
    · rw [if_pos hc] at h
      exact ih h
    · rw [if_neg hc] at h
      injection h with h1 h2
      subst h1
      exact Bool.eq_false_iff.mpr hc

theorem pySplitlinesL_eq_cons (a : List Char) (ha : a ≠ []) :
    pySplitlinesL a =
      a.takeWhile (fun c => c != '\n') ::
        pySplitlinesL ((a.dropWhile (fun c => c != '\n')).tail) := by
  induction a with
  | nil => exact absurd rfl ha
  | cons c cs ih =>
    by_cases hc : c = '\n'
    · subst hc
      rw [pySplitlinesL_cons_nl, List.takeWhile_cons, List.dropWhile_cons]
      rw [if_neg (by simp), if_neg (by simp)]
      rfl
    · have hb : (c != '\n') = true := by simp [hc]
      have hun : pySplitlinesL (c :: cs) =
          match pySplitlinesL cs with
          | [] => [[c]]
          | l :: ls => (c :: l) :: ls := by
        simp [pySplitlinesL, hc]
      rw [List.takeWhile_cons, List.dropWhile_cons, if_pos hb, if_pos hb]
      cases hcs : cs with
      | nil =>
        rw [hcs] at hun
        rw [hun]
        rfl
      | cons d ds =>
        have hsplit := ih (by rw [hcs]; exact List.cons_ne_nil d ds)
        rw [hcs] at hun hsplit
        rw [hun, hsplit]

theorem cleanLinesL_splitlines_allWs (w : List Char) (h : ∀ c ∈ w, pyIsSpace c = true) :
    cleanLinesL (pySplitlinesL w) = [] := by
  induction w with
  | nil => rfl
  | cons c cs ih =>
    have hc := h c (List.mem_cons_self c cs)
    have hcs := fun x hx => h x (List.mem_cons_of_mem c hx)
    by_cases hnl : c = '\n'
    · subst hnl
      rw [pySplitlinesL_cons_nl, cleanLinesL_cons]
      rw [if_pos (show pyStripL ([] : List Char) = [] from rfl)]
      exact ih hcs
    · have hun : pySplitlinesL (c :: cs) =
          match pySplitlinesL cs with
          | [] => [[c]]
          | l :: ls => (c :: l) :: ls := by
        simp [pySplitlinesL, hnl]
      cases hsp : pySplitlinesL cs with
      | nil =>
        rw [hun, hsp]
        show cleanLinesL [[c]] = []
        rw [cleanLinesL_cons, cleanLinesL_nil]
        rw [if_pos (by rw [pyStripL_cons_ws c [] hc]; rfl)]
      | cons l ls =>
        rw [hun, hsp]
        show cleanLinesL ((c :: l) :: ls) = []
        have hih := ih hcs
        rw [hsp] at hih
        rw [cleanLinesL_cons] at hih ⊢
        rw [pyStripL_cons_ws c l hc]
        exact hih

theorem cleanLinesL_splitlines_append_ws :
    ∀ (n : Nat) (a w : List Char), a.length ≤ n → (∀ c ∈ w, pyIsSpace c = true) →
      cleanLinesL (pySplitlinesL (a ++ w)) = cleanLinesL (pySplitlinesL a) := by
  intro n
  induction n with
  | zero =>
    intro a w ha hw
    have haa : a = [] := List.length_eq_zero.mp (Nat.le_zero.mp ha)
    subst haa
    rw [List.nil_append, cleanLinesL_splitlines_allWs w hw]
    rfl
  | succ m ihm =>
    intro a w ha hw
    cases a with
    | nil =>
      rw [List.nil_append, cleanLinesL_splitlines_allWs w hw]
      rfl
    | cons c cs =>
      have hane : (c :: cs) ≠ [] := List.cons_ne_nil c cs
      have hawne : (c :: cs) ++ w ≠ [] := by simp
      cases hd : (c :: cs).dropWhile (fun x => x != '\n') with
      | nil =>
        have hta : (c :: cs).takeWhile (fun x => x != '\n') = c :: cs := by
          have hcat := List.takeWhile_append_dropWhile (fun x => x != '\n') (c :: cs)
          rw [hd, List.append_nil] at hcat
          exact hcat
        have htw : ((c :: cs) ++ w).takeWhile (fun x => x != '\n')
            = (c :: cs) ++ w.takeWhile (fun x => x != '\n') := by
          rw [List.takeWhile_append]
          rw [if_pos (by rw [hta])]
        have hdw : ((c :: cs) ++ w).dropWhile (fun x => x != '\n')
            = w.dropWhile (fun x => x != '\n') := by
          rw [List.dropWhile_append, hd]
          rfl
        rw [pySplitlinesL_eq_cons ((c :: cs) ++ w) hawne, htw, hdw]
        rw [pySplitlinesL_eq_cons (c :: cs) hane, hta, hd]
        cases hdw2 : w.dropWhile (fun x => x != '\n') with
        | nil =>
          have htww : w.takeWhile (fun x => x != '\n') = w := by
            have hcat := List.takeWhile_append_dropWhile (fun x => x != '\n') w
            rw [hdw2, List.append_nil] at hcat
            exact hcat
          rw [htww]
          rw [cleanLinesL_cons, cleanLinesL_cons]
          rw [pyStripL_append_ws (c :: cs) w hw]
        | cons d ds =>
          have hdsub : ∀ x ∈ w.takeWhile (fun y => y != '\n'), pyIsSpace x = true :=
            fun x hx => hw x ((List.takeWhile_sublist _).mem hx)
          have hds : ∀ x ∈ ds, pyIsSpace x = true := by
            intro x hx
            apply hw
            have hmem : x ∈ w.dropWhile (fun y => y != '\n') := by
              rw [hdw2]
              exact List.mem_cons_of_mem d hx
            exact (List.dropWhile_sublist _).mem hmem
          rw [show (d :: ds).tail = ds from rfl]
          rw [cleanLinesL_cons, cleanLinesL_cons]
          rw [pyStripL_append_ws (c :: cs) (w.takeWhile (fun y => y != '\n')) hdsub]
          rw [cleanLinesL_splitlines_allWs ds hds]
          rfl
      | cons d r =>
        have hl := congrArg List.length (List.takeWhile_append_dropWhile (fun x => x != '\n') (c :: cs))
        rw [List.length_append, hd, List.length_cons, List.length_cons] at hl
        have hlen : ((c :: cs).takeWhile (fun x => x != '\n')).length ≠ (c :: cs).length := by
          rw [List.length_cons]
          omega
        have htw : ((c :: cs) ++ w).takeWhile (fun x => x != '\n')
            = (c :: cs).takeWhile (fun x => x != '\n') := by
          rw [List.takeWhile_append, if_neg hlen]
        have hdwne : ((c :: cs).dropWhile (fun x => x != '\n')).isEmpty = false := by
          rw [hd]
          rfl
        have hdw : ((c :: cs) ++ w).dropWhile (fun x => x != '\n')
            = (c :: cs).dropWhile (fun x => x != '\n') ++ w := by
          rw [List.dropWhile_append, hdwne]
          rw [if_neg (by simp)]
        rw [pySplitlinesL_eq_cons ((c :: cs) ++ w) hawne, htw, hdw, hd]
        rw [pySplitlinesL_eq_cons (c :: cs) hane, hd]
        rw [show ((d :: r) ++ w).tail = r ++ w from rfl]
        rw [show (d :: r).tail = r from rfl]
        rw [cleanLinesL_cons, cleanLinesL_cons]
        have hrlen : r.length ≤ m := by
          rw [List.length_cons] at ha
          omega
        rw [ihm r w hrlen hw]

theorem rstripL_decomp (x : List Char) :
    ∃ w, x = rstripL x ++ w ∧ ∀ c ∈ w, pyIsSpace c = true := by
  induction x with
  | nil => exact ⟨[], rfl, fun c hc => absurd hc (List.not_mem_nil c)⟩
  | cons c cs ih =>
    obtain ⟨w, hw, hws⟩ := ih
    by_cases hr : rstripL cs = []
    · have hcw : cs = w := by rw [hw, hr, List.nil_append]
      by_cases hc : pyIsSpace c = true
      · refine ⟨c :: cs, ?_, ?_⟩
        · have hz : rstripL (c :: cs) = [] := by simp [rstripL, hr, hc]
          rw [hz, List.nil_append]
        · intro x hx
          rcases List.mem_cons.mp hx with he | hm
          · rw [he]
            exact hc
          · exact hws x (hcw ▸ hm)
      · refine ⟨w, ?_, hws⟩
        have hrc : rstripL (c :: cs) = [c] := by simp [rstripL, hr, hc]
        rw [hrc, hcw]
        rfl
    · refine ⟨w, ?_, hws⟩
      have hrc : rstripL (c :: cs) = c :: rstripL cs := by simp [rstripL, hr]
      rw [hrc, List.cons_append, ← hw]

theorem cleanLinesL_splitlines_cons_ws (c : Char) (cs : List Char) (hc : pyIsSpace c = true) :
    cleanLinesL (pySplitlinesL (c :: cs)) = cleanLinesL (pySplitlinesL cs) := by
  by_cases hnl : c = '\n'
  · subst hnl
    rw [pySplitlinesL_cons_nl, cleanLinesL_cons]
    rw [if_pos (show pyStripL ([] : List Char) = [] from rfl)]
  · cases hsp : pySplitlinesL cs with
    | nil =>
      have hun : pySplitlinesL (c :: cs) = [[c]] := by simp [pySplitlinesL, hnl, hsp]
      rw [hun]
      rw [cleanLinesL_cons, cleanLinesL_nil]
      rw [if_pos (by rw [pyStripL_cons_ws c [] hc]; rfl)]
    | cons l ls =>
      have hun : pySplitlinesL (c :: cs) = (c :: l) :: ls := by simp [pySplitlinesL, hnl, hsp]
      rw [hun, cleanLinesL_cons, cleanLinesL_cons, pyStripL_cons_ws c l hc]

theorem cleanLinesL_splitlines_lstrip (l : List Char) :
    cleanLinesL (pySplitlinesL (lstripL l)) = cleanLinesL (pySplitlinesL l) := by
  induction l with
  | nil => rfl
  | cons c cs ih =>
    by_cases hc : pyIsSpace c = true
    · rw [show lstripL (c :: cs) = lstripL cs from by
        unfold lstripL
        rw [List.dropWhile_cons, if_pos hc]]
      rw [ih, cleanLinesL_splitlines_cons_ws c cs hc]
    · rw [show lstripL (c :: cs) = c :: cs from by
        unfold lstripL
        rw [List.dropWhile_cons, if_neg hc]]

theorem cleanLinesL_splitlines_strip (l : List Char) :
    cleanLinesL (pySplitlinesL (pyStripL l)) = cleanLinesL (pySplitlinesL l) := by
  obtain ⟨w, hw, hws⟩ := rstripL_decomp (lstripL l)
  have h1 : cleanLinesL (pySplitlinesL (rstripL (lstripL l) ++ w)) =
      cleanLinesL (pySplitlinesL (rstripL (lstripL l))) :=
    cleanLinesL_splitlines_append_ws (rstripL (lstripL l)).length _ w (le_refl _) hws
  unfold pyStripL
  rw [← h1, ← hw]
  exact cleanLinesL_splitlines_lstrip l

theorem cleanLinesL_eq_filter (ls : List (List Char)) :
    cleanLinesL ls = (ls.map pyStripL).filter (fun l => !l.isEmpty) := by
  induction ls with
  | nil => rfl
  | cons l ls ih =>
    rw [cleanLinesL_cons, List.map_cons, List.filter_cons]
    by_cases h : pyStripL l = []
    · have hb : (!(pyStripL l).isEmpty) = false := by rw [h]; rfl
      rw [if_pos h, hb, if_neg (by simp), ih]
    · have hb : (!(pyStripL l).isEmpty) = true := by
        cases hc : pyStripL l with
        | nil => exact absurd hc h
        | cons a t => rfl
      rw [if_neg h, hb, if_pos rfl, ih]

/-- C6: the post-processing of the raw generation response is exactly:
split into lines, trim each line, drop lines empty after trimming, rejoin
with single newlines (the initial whole-string strip performed by the code
never changes this result); on the concrete response with blank-line
padding the stored comment collapses to the two content lines. -/
theorem clean_response_matches_spec :
    (∀ content : String, clean_response content = cleanSpec content) ∧
    clean_response "\n\nFoo.\n\n@return bar\n\n" = "Foo.\n@return bar" := by
  constructor
  · intro content
    show String.mk (List.intercalate ['\n']
      (cleanLinesL (pySplitlinesL (pyStripL content.data)))) = cleanSpec content
    rw [cleanLinesL_splitlines_strip, cleanLinesL_eq_filter]
    rfl
  · rfl
